import Mathlib

/-
Verification of the Conversation Cache & Lifecycle Manager of
`src/components/ai_chat/core/browser/ai_chat_service.h` (class
`ai_chat::AIChatService`).

The repository ships only the class declaration (the header); the method
bodies are not part of the sources.  Every operation below is therefore
modelled from the specification (spec.md) and from the documentation
comments in the header, as a shallow embedding: one record of service
state mirroring the header's member fields, and one Lean function per
service operation.  The asynchronous event loop is modelled by an
inductive `Op` of externally triggered events and a `step` function;
storage I/O is tracked through explicit counters (requests sent,
completed, cancelled) and a list of resolved callbacks.
-/

namespace AIChatServiceModel

/-- Premium / entitlement status, mirroring `mojom::PremiumStatus`
(`Unknown` is the explicit initial state of `last_premium_status_`). -/
inductive PremiumStatus where
  | unknown
  | active
  | activeDisconnected
  | inactive
deriving DecidableEq, Repr

/-- Modelled from the spec: `ConversationMetadata` — the per-conversation
metadata record stored in the `conversations_` map ("All conversation
metadata. Mainly just titles and uuids."). -/
structure Conversation where
  uuid : String
  title : String
deriving DecidableEq, Repr

/-- Modelled from the spec: the in-memory `ConversationHandler` runtime
object.  The handler map `conversation_handlers_` is keyed by uuid, so the
model keeps only the observable activity flags plus an instance identity
`id` (allocation number) used to state "same handler instance" and
"most-recently-created handler within the current call stack". -/
structure ConversationHandler where
  id : Nat
  is_request_in_progress : Bool
  is_any_client_connected : Bool
deriving DecidableEq, Repr

/-- Keys of an association list. -/
def keysOf {κ : Type} {α : Type} (l : List (κ × α)) : List κ :=
  l.map Prod.fst

/-- Remove every entry with the given key (models `std::map::erase`). -/
def eraseKey {κ : Type} {α : Type} [BEq κ] (k : κ) (l : List (κ × α)) :
    List (κ × α) :=
  l.filter (fun p => p.1 != k)

/-- Replace the value stored under key `k` (models `std::map` value
assignment for an existing key). -/
def updateValue {κ : Type} {α : Type} [BEq κ] (k : κ) (v : α)
    (l : List (κ × α)) : List (κ × α) :=
  l.map (fun p => if p.1 == k then (k, v) else p)

/-- Insert-or-overwrite (models `std::map::insert_or_assign`). -/
def insertOrAssign {κ : Type} {α : Type} [BEq κ] (k : κ) (v : α)
    (l : List (κ × α)) : List (κ × α) :=
  match l.lookup k with
  | some _ => updateValue k v l
  | none => l ++ [(k, v)]

/-- Modelled from the spec: the whole observable state of `AIChatService`.
Fields mirror the header's members of the same names; the extra fields
(`pending_unloads`, `stack_created`, `next_handler_id`, the load counters
and `resolved`) make the asynchronous machinery (timers, callback
resolution, storage requests) explicit so that temporal claims can be
stated.  `on_conversations_loaded_callbacks`: `none` if fetching has not
started, a non-empty queue while a load is in flight, `some []` once done
fetching — exactly the convention documented in the header. -/
structure ServiceState where
  on_conversations_loaded_callbacks : Option (List Nat)
  /-- Mirrors `cancel_conversation_load_callback_`: `true` iff the callback
  is non-null, i.e. a bulk load is in flight and cancellable. -/
  cancel_conversation_load : Bool
  conversations : List (String × Conversation)
  conversation_handlers : List (String × ConversationHandler)
  content_conversations : List (Int × String)
  cached_focus_topics : List String
  last_premium_status : PremiumStatus
  /-- Conversation uuids with a scheduled (not yet fired) delayed unload. -/
  pending_unloads : List String
  /-- Instance id of the most-recently-created handler within the current
  call stack (cleared when control returns to the event loop). -/
  stack_created : Option Nat
  next_handler_id : Nat
  load_requests_sent : Nat
  loads_completed : Nat
  loads_cancelled : Nat
  /-- Log of resolved `GetAll`-style callbacks: callback id paired with the
  conversation mapping it was delivered. -/
  resolved : List (Nat × List (String × Conversation))
deriving DecidableEq, Repr

/-- Modelled from the spec: the freshly constructed service — nothing
fetched, no handlers, no associations, premium status `Unknown`. -/
def initState : ServiceState where
  on_conversations_loaded_callbacks := none
  cancel_conversation_load := false
  conversations := []
  conversation_handlers := []
  content_conversations := []
  cached_focus_topics := []
  last_premium_status := PremiumStatus.unknown
  pending_unloads := []
  stack_created := none
  next_handler_id := 0
  load_requests_sent := 0
  loads_completed := 0
  loads_cancelled := 0
  resolved := []

/-- Modelled from the spec: `LoadConversationsLazy(callback)` (body absent
from the sources).  If fetching is done (`some []`), the callback fires
immediately with the current mapping; if a load is in flight, the callback
is enqueued onto the existing pending load; otherwise a pending load is
created with this callback and one bulk load request is sent to storage. -/
def LoadConversationsLazy (cb : Nat) (st : ServiceState) : ServiceState :=
  match st.on_conversations_loaded_callbacks with
  | some [] => { st with resolved := st.resolved ++ [(cb, st.conversations)] }
  | some q => { st with on_conversations_loaded_callbacks := some (q ++ [cb]) }
  | none =>
      { st with
        on_conversations_loaded_callbacks := some [cb]
        cancel_conversation_load := true
        load_requests_sent := st.load_requests_sent + 1 }

/-- Merge freshly loaded metadata into the in-memory mapping. -/
def mergeConversations (l : List (String × Conversation))
    (data : List Conversation) : List (String × Conversation) :=
  data.foldl (fun acc c => insertOrAssign c.uuid c acc) l

/-- Modelled from the spec: `OnLoadConversationsLazyData(conversations)`
(body absent from the sources).  If no load is in flight (it was
cancelled), the stale response is dropped.  Otherwise the loaded metadata
is merged into `conversations_`, fetching is marked done (`some []`), the
cancel callback is cleared, and every queued callback is resolved with the
same resulting mapping in FIFO order. -/
def OnLoadConversationsLazyData (data : List Conversation)
    (st : ServiceState) : ServiceState :=
  if st.cancel_conversation_load then
    let m := mergeConversations st.conversations data
    let q := st.on_conversations_loaded_callbacks.getD []
    { st with
      conversations := m
      on_conversations_loaded_callbacks := some []
      cancel_conversation_load := false
      loads_completed := st.loads_completed + 1
      resolved := st.resolved ++ q.map (fun cb => (cb, m)) }
  else st

/-- Callback id used for the internal do-nothing callback that
`ReloadConversations` passes to `LoadConversationsLazy`. -/
def doNothingCallbackId : Nat := 0

/-- Modelled from the spec: `ReloadConversations` (body absent from the
sources).  If a load is in flight it is cancelled first — its queued
callers are dropped, not invoked — then the hydration state is reset and a
fresh bulk load is triggered. -/
def ReloadConversations (st : ServiceState) : ServiceState :=
  let st1 :=
    if st.cancel_conversation_load then
      { st with
        loads_cancelled := st.loads_cancelled + 1
        cancel_conversation_load := false
        on_conversations_loaded_callbacks := none }
    else { st with on_conversations_loaded_callbacks := none }
  let st2 := { st1 with conversations := [] }
  LoadConversationsLazy doNothingCallbackId st2

/-- Modelled from the spec: `CanUnloadConversation(conversation)` (body
absent from the sources): false while the handler has a request in
progress, has attached remote clients, or is the most-recently-created
handler within the current call stack. -/
def CanUnloadConversation (st : ServiceState) (h : ConversationHandler) :
    Bool :=
  if h.is_request_in_progress then false
  else if h.is_any_client_connected then false
  else if st.stack_created = some h.id then false
  else true

/-- Modelled from the spec: `QueueMaybeUnloadConversation(conversation)`
(body absent from the sources): if the conversation is unloadable,
schedules a delayed unload (one timer per uuid). -/
def QueueMaybeUnloadConversation (u : String) (st : ServiceState) :
    ServiceState :=
  match st.conversation_handlers.lookup u with
  | none => st
  | some h =>
      if CanUnloadConversation st h then
        if st.pending_unloads.contains u then st
        else { st with pending_unloads := u :: st.pending_unloads }
      else st

/-- Modelled from the spec: `MaybeUnloadConversation(conversation)` (body
absent from the sources): unloads the conversation if (1) it has not
already been unloaded and (2) `CanUnloadConversation` is true; otherwise
does nothing. -/
def MaybeUnloadConversation (u : String) (st : ServiceState) :
    ServiceState :=
  match st.conversation_handlers.lookup u with
  | none => st
  | some h =>
      if CanUnloadConversation st h then
        { st with
          conversation_handlers := eraseKey u st.conversation_handlers }
      else st

/-- Modelled from the spec: a scheduled delayed-unload timer firing — the
timer for `u` is consumed and `MaybeUnloadConversation` re-evaluates the
state before acting. -/
def FireScheduledUnload (u : String) (st : ServiceState) : ServiceState :=
  if st.pending_unloads.contains u then
    MaybeUnloadConversation u
      { st with pending_unloads := st.pending_unloads.filter (fun v => v != u) }
  else st

/-- Modelled from the spec: `CreateConversation` (body absent from the
sources).  The real code generates a fresh random GUID; the model takes
the uuid as a parameter and renders freshness as a lookup guard (an
already-present uuid returns the existing handler instead of creating a
duplicate).  Creation records the new handler as the most-recently-created
one of the current call stack. -/
def CreateConversation (uuid : String) (st : ServiceState) :
    ConversationHandler × ServiceState :=
  match st.conversation_handlers.lookup uuid with
  | some h => (h, st)
  | none =>
      let h : ConversationHandler :=
        { id := st.next_handler_id
          is_request_in_progress := false
          is_any_client_connected := false }
      (h,
       { st with
         conversation_handlers := (uuid, h) :: st.conversation_handlers
         conversations :=
           insertOrAssign uuid { uuid := uuid, title := "" } st.conversations
         next_handler_id := st.next_handler_id + 1
         stack_created := some st.next_handler_id })

/-- Modelled from the spec: `MaybeAssociateContent` — associates a content
id with a conversation uuid, overwriting any previous association for that
content id (`content_conversations_` insert-or-assign). -/
def MaybeAssociateContent (cid : Int) (u : String) (st : ServiceState) :
    ServiceState :=
  { st with
    content_conversations :=
      (cid, u) :: st.content_conversations.filter (fun p => p.1 != cid) }

/-- Modelled from the spec: `CreateConversationHandlerForContent` — creates
a new conversation handler and associates the content id with it. -/
def CreateConversationHandlerForContent (cid : Int) (fresh : String)
    (st : ServiceState) : ConversationHandler × ServiceState :=
  let r := CreateConversation fresh st
  (r.1, MaybeAssociateContent cid fresh r.2)

/-- Modelled from the spec: `GetOrCreateConversationHandlerForContent`
(body absent from the sources).  Resolves the content id through
`content_conversations_`; returns the existing handler when one is live
(renewed activity cancels any pending delayed unload for it), otherwise
creates a new conversation handler for the content. -/
def GetOrCreateConversationHandlerForContent (cid : Int) (fresh : String)
    (st : ServiceState) : ConversationHandler × ServiceState :=
  match st.content_conversations.lookup cid with
  | some uuid =>
      match st.conversation_handlers.lookup uuid with
      | some h =>
          (h,
           { st with
             pending_unloads :=
               st.pending_unloads.filter (fun v => v != uuid) })
      | none => CreateConversationHandlerForContent cid fresh st
  | none => CreateConversationHandlerForContent cid fresh st

/-- Modelled from the spec: `OnClientConnectionChanged(handler)` (body
absent from the sources), specialized with the handler's new connection
state.  A connection uptick is renewed activity and cancels any pending
delayed unload; losing the last client queues a delayed unload. -/
def OnClientConnectionChanged (u : String) (connected : Bool)
    (st : ServiceState) : ServiceState :=
  match st.conversation_handlers.lookup u with
  | none => st
  | some h =>
      let st1 :=
        { st with
          conversation_handlers :=
            updateValue u { h with is_any_client_connected := connected }
              st.conversation_handlers }
      if connected then
        { st1 with
          pending_unloads := st1.pending_unloads.filter (fun v => v != u) }
      else QueueMaybeUnloadConversation u st1

/-- Modelled from the spec: `OnRequestInProgressChanged(handler,
in_progress)` (body absent from the sources).  A request starting is
renewed activity and cancels any pending delayed unload; a request
finishing queues a delayed unload. -/
def OnRequestInProgressChanged (u : String) (in_progress : Bool)
    (st : ServiceState) : ServiceState :=
  match st.conversation_handlers.lookup u with
  | none => st
  | some h =>
      let st1 :=
        { st with
          conversation_handlers :=
            updateValue u { h with is_request_in_progress := in_progress }
              st.conversation_handlers }
      if in_progress then
        { st1 with
          pending_unloads := st1.pending_unloads.filter (fun v => v != u) }
      else QueueMaybeUnloadConversation u st1

/-- Modelled from the spec: `DeleteConversation(id)` (body absent from the
sources): immediately destroys any active handler, removes the metadata
record, every content association pointing at the conversation, and any
scheduled delayed unload — without consulting `CanUnloadConversation` or
waiting for the idle delay. -/
def DeleteConversation (u : String) (st : ServiceState) : ServiceState :=
  { st with
    conversation_handlers := eraseKey u st.conversation_handlers
    conversations := eraseKey u st.conversations
    content_conversations :=
      st.content_conversations.filter (fun p => p.2 != u)
    pending_unloads := st.pending_unloads.filter (fun v => v != u) }

/-- Modelled from the spec: bulk `DeleteConversations()` with the default
(absent) time bounds, i.e. delete-all: every handler, metadata record,
content association and scheduled unload is removed immediately. -/
def DeleteConversations (st : ServiceState) : ServiceState :=
  { st with
    conversation_handlers := []
    conversations := []
    content_conversations := []
    pending_unloads := [] }

/-- Modelled from the spec: `DisassociateContent` for a content id —
removes the content association so the content id no longer resolves. -/
def DisassociateContent (cid : Int) (st : ServiceState) : ServiceState :=
  { st with
    content_conversations :=
      st.content_conversations.filter (fun p => p.1 != cid) }

/-- Modelled from the spec: `TabDataChanged(tab_data)` (body absent from
the sources): the cached suggested focus topics are cleared whenever the
tracked tab data changes, per the header comment on
`cached_focus_topics_`. -/
def TabDataChanged (tab_data : List Nat) (st : ServiceState) :
    ServiceState :=
  { st with cached_focus_topics := [] }

/-- Modelled from the spec: `OnSuggestedTopicsReceived` — caches the topics
of the latest `GetSuggestedTopics` call. -/
def OnSuggestedTopicsReceived (topics : List String) (st : ServiceState) :
    ServiceState :=
  { st with cached_focus_topics := topics }

/-- Modelled from the spec: `GetPremiumStatus(callback)` — triggers an
on-demand refresh through the credential manager; the cached value itself
changes only when the response arrives (`OnPremiumStatusReceived`). -/
def GetPremiumStatus (st : ServiceState) : ServiceState := st

/-- Modelled from the spec: `OnPremiumStatusReceived(callback, status,
info)` — the only writer of `last_premium_status_`. -/
def OnPremiumStatusReceived (status : PremiumStatus) (st : ServiceState) :
    ServiceState :=
  { st with last_premium_status := status }

/-- Modelled from the spec: control returning to the event loop — the
"most-recently-created handler within the current call stack" marker is
cleared. -/
def TurnEnd (st : ServiceState) : ServiceState :=
  { st with stack_created := none }

/-- Externally triggered events of the service's event loop. -/
inductive Op where
  | loadConversationsLazy (cb : Nat)
  | onLoadConversationsData (data : List Conversation)
  | reloadConversations
  | createConversation (uuid : String)
  | getOrCreateForContent (cid : Int) (fresh : String)
  | maybeAssociateContent (cid : Int) (uuid : String)
  | clientConnectionChanged (uuid : String) (connected : Bool)
  | requestInProgressChanged (uuid : String) (in_progress : Bool)
  | fireScheduledUnload (uuid : String)
  | deleteConversation (uuid : String)
  | deleteConversations
  | disassociateContent (cid : Int)
  | tabDataChanged (tabs : List Nat)
  | suggestedTopicsReceived (topics : List String)
  | getPremiumStatus
  | onPremiumStatusReceived (status : PremiumStatus)
  | turnEnd
deriving DecidableEq, Repr

/-- Whether the event is the arrival of a premium-status response. -/
def Op.isOnPremiumStatusReceived : Op → Bool
  | Op.onPremiumStatusReceived _ => true
  | _ => false

/-- One step of the service's event loop. -/
def step (op : Op) (st : ServiceState) : ServiceState :=
  match op with
  | Op.loadConversationsLazy cb => LoadConversationsLazy cb st
  | Op.onLoadConversationsData data => OnLoadConversationsLazyData data st
  | Op.reloadConversations => ReloadConversations st
  | Op.createConversation u => (CreateConversation u st).2
  | Op.getOrCreateForContent cid fresh =>
      (GetOrCreateConversationHandlerForContent cid fresh st).2
  | Op.maybeAssociateContent cid u => MaybeAssociateContent cid u st
  | Op.clientConnectionChanged u c => OnClientConnectionChanged u c st
  | Op.requestInProgressChanged u p => OnRequestInProgressChanged u p st
  | Op.fireScheduledUnload u => FireScheduledUnload u st
  | Op.deleteConversation u => DeleteConversation u st
  | Op.deleteConversations => DeleteConversations st
  | Op.disassociateContent cid => DisassociateContent cid st
  | Op.tabDataChanged tabs => TabDataChanged tabs st
  | Op.suggestedTopicsReceived ts => OnSuggestedTopicsReceived ts st
  | Op.getPremiumStatus => GetPremiumStatus st
  | Op.onPremiumStatusReceived s => OnPremiumStatusReceived s st
  | Op.turnEnd => TurnEnd st

/-- Run a sequence of events from a state. -/
def run (ops : List Op) (st : ServiceState) : ServiceState :=
  ops.foldl (fun s op => step op s) st

/-- Issue a batch of `GetConversations`-style requests (each one a
`LoadConversationsLazy` call), in order. -/
def issueAll (cbs : List Nat) (st : ServiceState) : ServiceState :=
  cbs.foldl (fun s cb => LoadConversationsLazy cb s) st

/-- Whether a bulk metadata load is currently in flight (pending-callback
queue exists and is non-empty). -/
def loadInFlight (st : ServiceState) : Bool :=
  match st.on_conversations_loaded_callbacks with
  | some (_ :: _) => true
  | _ => false

/-- Number of bulk load requests sent to storage and not yet completed or
cancelled. -/
def outstandingLoads (st : ServiceState) : Nat :=
  st.load_requests_sent - (st.loads_completed + st.loads_cancelled)

/-- Consistency of the load-request accounting: the cancel callback is
non-null exactly while a load is in flight, and the counters record every
request as completed, cancelled, or the single in-flight one. -/
def LoadInv (st : ServiceState) : Prop :=
  st.cancel_conversation_load = loadInFlight st ∧
  st.load_requests_sent =
    st.loads_completed + st.loads_cancelled +
      (if st.cancel_conversation_load then 1 else 0)

/-- Number of entries of an association list carrying the given key. -/
def countKey {κ : Type} {α : Type} [BEq κ] (k : κ) (l : List (κ × α)) : Nat :=
  (l.filter (fun p => p.1 == k)).length

/-- Events that can occur while a caller's stack frame is still active
(uses of a handler and asynchronous completions) — as opposed to ending
the turn, creating another handler, or explicitly deleting conversations. -/
def sameTurnUse : Op → Bool
  | Op.createConversation _ => false
  | Op.getOrCreateForContent _ _ => false
  | Op.deleteConversation _ => false
  | Op.deleteConversations => false
  | Op.turnEnd => false
  | _ => true

/-- Concrete conversation uuid used to exercise the operations. -/
def uuidA : String := "a"

/-- Uuid of a conversation that was never created. -/
def uuidMissing : String := "missing"

/-- Concrete state used to exercise the lifecycle operations: one idle
handler for conversation `uuidA` (no request, no clients, stack marker
cleared), associated to content id 1, with a delayed unload scheduled. -/
def demoIdleState : ServiceState :=
  run [Op.createConversation uuidA, Op.maybeAssociateContent 1 uuidA,
       Op.turnEnd, Op.clientConnectionChanged uuidA false] initState

/-- The handler instance living in `demoIdleState`. -/
def demoHandler : ConversationHandler :=
  { id := 0, is_request_in_progress := false, is_any_client_connected := false }

/-- Whether some entry of the handler map holds the handler instance with
allocation id `i`. -/
def anyId (i : Nat) (l : List (String × ConversationHandler)) : Bool :=
  l.any (fun p => p.2.id == i)

lemma keysOf_nil {κ α : Type} : keysOf ([] : List (κ × α)) = [] := rfl

lemma keysOf_cons {κ α : Type} (p : κ × α) (t : List (κ × α)) :
    keysOf (p :: t) = p.1 :: keysOf t := rfl

lemma lookup_cons_eq {κ α : Type} [BEq κ] [LawfulBEq κ] (k : κ) (v : α)
    (t : List (κ × α)) : ((k, v) :: t).lookup k = some v := by
  rw [List.lookup_cons]
  simp

lemma lookup_cons_ne {κ α : Type} [BEq κ] [LawfulBEq κ] {k k1 : κ} (v1 : α)
    (t : List (κ × α)) (h : k ≠ k1) :
    ((k1, v1) :: t).lookup k = t.lookup k := by
  rw [List.lookup_cons]
  rw [show (k == k1) = false from beq_eq_false_iff_ne.mpr h]

lemma eraseKey_nil {κ α : Type} [BEq κ] (k : κ) :
    eraseKey k ([] : List (κ × α)) = [] := rfl

lemma eraseKey_cons_eq {κ α : Type} [BEq κ] [LawfulBEq κ] (k : κ) (v1 : α)
    (t : List (κ × α)) : eraseKey k ((k, v1) :: t) = eraseKey k t := by
  simp only [eraseKey, List.filter_cons]
  rw [show ((k, v1).1 != k) = false from by simp]
  simp

lemma eraseKey_cons_ne {κ α : Type} [BEq κ] [LawfulBEq κ] {k k1 : κ}
    (v1 : α) (t : List (κ × α)) (h : k1 ≠ k) :
    eraseKey k ((k1, v1) :: t) = (k1, v1) :: eraseKey k t := by
  simp only [eraseKey, List.filter_cons]
  rw [show ((k1, v1).1 != k) = true from bne_iff_ne.mpr h]
  simp

lemma updateValue_nil {κ α : Type} [BEq κ] (k : κ) (v : α) :
    updateValue k v ([] : List (κ × α)) = [] := rfl

lemma updateValue_cons_eq {κ α : Type} [BEq κ] [LawfulBEq κ] (k : κ)
    (v v1 : α) (t : List (κ × α)) :
    updateValue k v ((k, v1) :: t) = (k, v) :: updateValue k v t := by
  simp only [updateValue, List.map_cons]
  rw [show ((k, v1).1 == k) = true from by simp]
  simp

lemma updateValue_cons_ne {κ α : Type} [BEq κ] [LawfulBEq κ] {k k1 : κ}
    (v : α) (v1 : α) (t : List (κ × α)) (h : k1 ≠ k) :
    updateValue k v ((k1, v1) :: t) = (k1, v1) :: updateValue k v t := by
  simp only [updateValue, List.map_cons]
  rw [show ((k1, v1).1 == k) = false from beq_eq_false_iff_ne.mpr h]
  simp

lemma anyId_nil (i : Nat) : anyId i [] = false := rfl

lemma anyId_cons (i : Nat) (k : String) (g : ConversationHandler)
    (t : List (String × ConversationHandler)) :
    anyId i ((k, g) :: t) = (g.id == i || anyId i t) := by
  simp [anyId, List.any_cons]

lemma lookup_eraseKey_self {κ α : Type} [BEq κ] [LawfulBEq κ] (k : κ)
    (l : List (κ × α)) : (eraseKey k l).lookup k = none := by
  induction l with
  | nil => rfl
  | cons p t ih =>
    obtain ⟨k1, v1⟩ := p
    by_cases h : k1 = k
    · subst h
      rw [eraseKey_cons_eq]
      exact ih
    · rw [eraseKey_cons_ne v1 t h, lookup_cons_ne v1 _ (Ne.symm h)]
      exact ih

lemma filter_bne_not_contains {κ : Type} [BEq κ] [LawfulBEq κ] (k : κ)
    (l : List κ) : (l.filter (fun v => v != k)).contains k = false := by
  induction l with
  | nil => rfl
  | cons a t ih =>
    by_cases h : a = k
    · rw [List.filter_cons]
      rw [show (a != k) = false from by simp [h]]
      simpa using ih
    · rw [List.filter_cons]
      rw [show (a != k) = true from bne_iff_ne.mpr h]
      simp only [if_true]
      rw [List.contains_cons]
      rw [show (k == a) = false from beq_eq_false_iff_ne.mpr (Ne.symm h)]
      simpa using ih

lemma keysOf_updateValue {κ α : Type} [BEq κ] [LawfulBEq κ] (k : κ) (v : α)
    (l : List (κ × α)) : keysOf (updateValue k v l) = keysOf l := by
  induction l with
  | nil => rfl
  | cons p t ih =>
    obtain ⟨k1, v1⟩ := p
    by_cases h : k1 = k
    · subst h
      rw [updateValue_cons_eq, keysOf_cons, keysOf_cons, ih]
    · rw [updateValue_cons_ne v v1 t h, keysOf_cons, keysOf_cons, ih]

lemma lookup_none_not_mem_keys {κ α : Type} [BEq κ] [LawfulBEq κ] {k : κ}
    {l : List (κ × α)} (h : l.lookup k = none) : k ∉ keysOf l := by
  induction l with
  | nil => simp [keysOf_nil]
  | cons p t ih =>
    obtain ⟨k1, v1⟩ := p
    rw [keysOf_cons, List.mem_cons]
    push_neg
    by_cases hk : k = k1
    · subst hk
      rw [lookup_cons_eq] at h
      exact absurd h (by simp)
    · rw [lookup_cons_ne v1 t hk] at h
      exact ⟨hk, ih h⟩

lemma eraseKey_eq_of_not_mem {κ α : Type} [BEq κ] [LawfulBEq κ] {k : κ}
    {l : List (κ × α)} (h : k ∉ keysOf l) : eraseKey k l = l := by
  induction l with
  | nil => rfl
  | cons p t ih =>
    obtain ⟨k1, v1⟩ := p
    rw [keysOf_cons, List.mem_cons] at h
    push_neg at h
    rw [eraseKey_cons_ne v1 t (Ne.symm h.1), ih h.2]

lemma updateValue_eq_of_not_mem {κ α : Type} [BEq κ] [LawfulBEq κ] {k : κ}
    {v : α} {l : List (κ × α)} (h : k ∉ keysOf l) : updateValue k v l = l := by
  induction l with
  | nil => rfl
  | cons p t ih =>
    obtain ⟨k1, v1⟩ := p
    rw [keysOf_cons, List.mem_cons] at h
    push_neg at h
    rw [updateValue_cons_ne v v1 t (Ne.symm h.1), ih h.2]

lemma lookup_updateValue_self {κ α : Type} [BEq κ] [LawfulBEq κ] (k : κ)
    (v : α) (l : List (κ × α)) :
    (updateValue k v l).lookup k = (l.lookup k).map (fun _ => v) := by
  induction l with
  | nil => rfl
  | cons p t ih =>
    obtain ⟨k1, v1⟩ := p
    by_cases h : k1 = k
    · subst h
      rw [updateValue_cons_eq, lookup_cons_eq, lookup_cons_eq]
      rfl
    · rw [updateValue_cons_ne v v1 t h, lookup_cons_ne v1 _ (Ne.symm h),
        lookup_cons_ne v1 t (Ne.symm h)]
      exact ih

lemma nodup_keys_eraseKey {κ α : Type} [BEq κ] (k : κ) {l : List (κ × α)}
    (h : (keysOf l).Nodup) : (keysOf (eraseKey k l)).Nodup :=
  List.Nodup.sublist ((List.filter_sublist l).map Prod.fst) h

lemma anyId_eraseKey {i : Nat} {u : String} {h : ConversationHandler}
    {l : List (String × ConversationHandler)} (hnd : (keysOf l).Nodup)
    (hl : l.lookup u = some h) (hne : h.id ≠ i) (ha : anyId i l = true) :
    anyId i (eraseKey u l) = true := by
  induction l with
  | nil => simp [anyId] at ha
  | cons p t ih =>
    obtain ⟨k1, g⟩ := p
    rw [keysOf_cons, List.nodup_cons] at hnd
    rw [anyId_cons] at ha
    by_cases hk : u = k1
    · subst hk
      rw [lookup_cons_eq] at hl
      have hg : g = h := by injection hl
      subst hg
      rw [eraseKey_cons_eq, eraseKey_eq_of_not_mem hnd.1]
      rcases (Bool.or_eq_true _ _ ▸ ha : _ ∨ _) with ha1 | ha2
      · exact absurd (by simpa using ha1) hne
      · exact ha2
    · rw [lookup_cons_ne g t hk] at hl
      rw [eraseKey_cons_ne g t (fun hc => hk hc.symm), anyId_cons]
      rcases (Bool.or_eq_true _ _ ▸ ha : _ ∨ _) with ha1 | ha2
      · rw [ha1]
        rfl
      · rw [ih hnd.2 hl ha2]
        simp

lemma anyId_updateValue {i : Nat} {u : String} {h h2 : ConversationHandler}
    {l : List (String × ConversationHandler)} (hnd : (keysOf l).Nodup)
    (hl : l.lookup u = some h) (hid : h2.id = h.id) (ha : anyId i l = true) :
    anyId i (updateValue u h2 l) = true := by
  induction l with
  | nil => simp [anyId] at ha
  | cons p t ih =>
    obtain ⟨k1, g⟩ := p
    rw [keysOf_cons, List.nodup_cons] at hnd
    rw [anyId_cons] at ha
    by_cases hk : u = k1
    · subst hk
      rw [lookup_cons_eq] at hl
      have hg : g = h := by injection hl
      subst hg
      rw [updateValue_cons_eq, updateValue_eq_of_not_mem hnd.1, anyId_cons]
      rcases (Bool.or_eq_true _ _ ▸ ha : _ ∨ _) with ha1 | ha2
      · rw [show (h2.id == i) = true from by
          rw [hid]
          exact ha1]
        rfl
      · rw [ha2]
        simp
    · rw [lookup_cons_ne g t hk] at hl
      rw [updateValue_cons_ne h2 g t (fun hc => hk hc.symm), anyId_cons]
      rcases (Bool.or_eq_true _ _ ▸ ha : _ ∨ _) with ha1 | ha2
      · rw [ha1]
        rfl
      · rw [ih hnd.2 hl ha2]
        simp

lemma step_preserves_last_premium_status (op : Op) (st : ServiceState)
    (h : op.isOnPremiumStatusReceived = false) :
    (step op st).last_premium_status = st.last_premium_status := by
  cases op
  case onPremiumStatusReceived s => simp [Op.isOnPremiumStatusReceived] at h
  all_goals
    simp only [step, LoadConversationsLazy, OnLoadConversationsLazyData,
      ReloadConversations, CreateConversation, MaybeAssociateContent,
      CreateConversationHandlerForContent,
      GetOrCreateConversationHandlerForContent, OnClientConnectionChanged,
      OnRequestInProgressChanged, QueueMaybeUnloadConversation,
      FireScheduledUnload, MaybeUnloadConversation, DeleteConversation,
      DeleteConversations, DisassociateContent, TabDataChanged,
      OnSuggestedTopicsReceived, GetPremiumStatus, TurnEnd]
    repeat' split
    all_goals rfl

lemma handlers_LoadConversationsLazy (cb : Nat) (st : ServiceState) :
    (LoadConversationsLazy cb st).conversation_handlers =
      st.conversation_handlers := by
  simp only [LoadConversationsLazy]
  repeat' split
  all_goals rfl

lemma handlers_OnLoadConversationsLazyData (data : List Conversation)
    (st : ServiceState) :
    (OnLoadConversationsLazyData data st).conversation_handlers =
      st.conversation_handlers := by
  simp only [OnLoadConversationsLazyData]
  repeat' split
  all_goals rfl

lemma handlers_ReloadConversations (st : ServiceState) :
    (ReloadConversations st).conversation_handlers =
      st.conversation_handlers := by
  simp only [ReloadConversations, LoadConversationsLazy]
  repeat' split
  all_goals rfl

lemma handlers_QueueMaybeUnloadConversation (u : String) (st : ServiceState) :
    (QueueMaybeUnloadConversation u st).conversation_handlers =
      st.conversation_handlers := by
  simp only [QueueMaybeUnloadConversation]
  repeat' split
  all_goals rfl

lemma nodup_CreateConversation (u : String) (st : ServiceState)
    (h : (keysOf st.conversation_handlers).Nodup) :
    (keysOf (CreateConversation u st).2.conversation_handlers).Nodup := by
  unfold CreateConversation
  cases hl : st.conversation_handlers.lookup u with
  | some g => exact h
  | none =>
      show (keysOf ((u, _) :: st.conversation_handlers)).Nodup
      rw [keysOf_cons, List.nodup_cons]
      exact ⟨lookup_none_not_mem_keys hl, h⟩

lemma nodup_GetOrCreateConversationHandlerForContent (cid : Int)
    (fresh : String) (st : ServiceState)
    (h : (keysOf st.conversation_handlers).Nodup) :
    (keysOf (GetOrCreateConversationHandlerForContent cid fresh
      st).2.conversation_handlers).Nodup := by
  unfold GetOrCreateConversationHandlerForContent
    CreateConversationHandlerForContent MaybeAssociateContent
  repeat' split
  · exact h
  · exact nodup_CreateConversation fresh st h
  · exact nodup_CreateConversation fresh st h

lemma nodup_updateValue_handlers (u : String) (g : ConversationHandler)
    (st : ServiceState) (h : (keysOf st.conversation_handlers).Nodup) :
    (keysOf (updateValue u g st.conversation_handlers)).Nodup := by
  rw [keysOf_updateValue]
  exact h

lemma nodup_OnClientConnectionChanged (u : String) (c : Bool)
    (st : ServiceState) (h : (keysOf st.conversation_handlers).Nodup) :
    (keysOf (OnClientConnectionChanged u c st).conversation_handlers).Nodup := by
  unfold OnClientConnectionChanged
  repeat' split
  · exact h
  · exact nodup_updateValue_handlers u _ st h
  · rw [handlers_QueueMaybeUnloadConversation]
    exact nodup_updateValue_handlers u _ st h

lemma nodup_OnRequestInProgressChanged (u : String) (p : Bool)
    (st : ServiceState) (h : (keysOf st.conversation_handlers).Nodup) :
    (keysOf (OnRequestInProgressChanged u p st).conversation_handlers).Nodup := by
  unfold OnRequestInProgressChanged
  repeat' split
  · exact h
  · exact nodup_updateValue_handlers u _ st h
  · rw [handlers_QueueMaybeUnloadConversation]
    exact nodup_updateValue_handlers u _ st h

lemma nodup_MaybeUnloadConversation (u : String) (st : ServiceState)
    (h : (keysOf st.conversation_handlers).Nodup) :
    (keysOf (MaybeUnloadConversation u st).conversation_handlers).Nodup := by
  unfold MaybeUnloadConversation
  repeat' split
  · exact h
  · exact nodup_keys_eraseKey u h
  · exact h

lemma nodup_FireScheduledUnload (u : String) (st : ServiceState)
    (h : (keysOf st.conversation_handlers).Nodup) :
    (keysOf (FireScheduledUnload u st).conversation_handlers).Nodup := by
  unfold FireScheduledUnload
  split
  · exact nodup_MaybeUnloadConversation u _ h
  · exact h

lemma step_preserves_handlers_nodup (op : Op) (st : ServiceState)
    (h : (keysOf st.conversation_handlers).Nodup) :
    (keysOf (step op st).conversation_handlers).Nodup := by
  cases op with
  | loadConversationsLazy cb =>
      rw [step, handlers_LoadConversationsLazy]
      exact h
  | onLoadConversationsData data =>
      rw [step, handlers_OnLoadConversationsLazyData]
      exact h
  | reloadConversations =>
      rw [step, handlers_ReloadConversations]
      exact h
  | createConversation u => exact nodup_CreateConversation u st h
  | getOrCreateForContent cid fresh =>
      exact nodup_GetOrCreateConversationHandlerForContent cid fresh st h
  | maybeAssociateContent cid u => exact h
  | clientConnectionChanged u c =>
      exact nodup_OnClientConnectionChanged u c st h
  | requestInProgressChanged u p =>
      exact nodup_OnRequestInProgressChanged u p st h
  | fireScheduledUnload u => exact nodup_FireScheduledUnload u st h
  | deleteConversation u => exact nodup_keys_eraseKey u h
  | deleteConversations => exact List.nodup_nil
  | disassociateContent cid => exact h
  | tabDataChanged tabs => exact h
  | suggestedTopicsReceived ts => exact h
  | getPremiumStatus => exact h
  | onPremiumStatusReceived s => exact h
  | turnEnd => exact h

lemma run_preserves_handlers_nodup (ops : List Op) (st : ServiceState)
    (h : (keysOf st.conversation_handlers).Nodup) :
    (keysOf (run ops st).conversation_handlers).Nodup := by
  induction ops generalizing st with
  | nil => exact h
  | cons op rest ih => exact ih (step op st) (step_preserves_handlers_nodup op st h)

lemma step_preserves_stack_created (op : Op) (st : ServiceState)
    (h : sameTurnUse op = true) :
    (step op st).stack_created = st.stack_created := by
  cases op
  case createConversation u => simp [sameTurnUse] at h
  case getOrCreateForContent cid fresh => simp [sameTurnUse] at h
  case deleteConversation u => simp [sameTurnUse] at h
  case deleteConversations => simp [sameTurnUse] at h
  case turnEnd => simp [sameTurnUse] at h
  all_goals
    simp only [step, LoadConversationsLazy, OnLoadConversationsLazyData,
      ReloadConversations, MaybeAssociateContent, OnClientConnectionChanged,
      OnRequestInProgressChanged, QueueMaybeUnloadConversation,
      FireScheduledUnload, MaybeUnloadConversation, DisassociateContent,
      TabDataChanged, OnSuggestedTopicsReceived, GetPremiumStatus,
      OnPremiumStatusReceived]
    repeat' split
    all_goals rfl

lemma anyId_MaybeUnloadConversation (u : String) (st : ServiceState)
    (i : Nat) (hnd : (keysOf st.conversation_handlers).Nodup)
    (hstack : st.stack_created = some i)
    (ha : anyId i st.conversation_handlers = true) :
    anyId i (MaybeUnloadConversation u st).conversation_handlers = true := by
  unfold MaybeUnloadConversation
  split
  · exact ha
  · rename_i g hl
    split
    · rename_i hcan
      have hgi : g.id ≠ i := by
        intro hgi
        subst hgi
        cases hreq : g.is_request_in_progress <;>
          cases hconn : g.is_any_client_connected <;>
          simp [CanUnloadConversation, hreq, hconn, hstack] at hcan
      exact anyId_eraseKey hnd hl hgi ha
    · exact ha

lemma step_preserves_anyId (op : Op) (st : ServiceState) (i : Nat)
    (hop : sameTurnUse op = true)
    (hnd : (keysOf st.conversation_handlers).Nodup)
    (hstack : st.stack_created = some i)
    (ha : anyId i st.conversation_handlers = true) :
    anyId i (step op st).conversation_handlers = true := by
  cases op with
  | loadConversationsLazy cb =>
      rw [step, handlers_LoadConversationsLazy]
      exact ha
  | onLoadConversationsData data =>
      rw [step, handlers_OnLoadConversationsLazyData]
      exact ha
  | reloadConversations =>
      rw [step, handlers_ReloadConversations]
      exact ha
  | maybeAssociateContent cid u => exact ha
  | clientConnectionChanged u c =>
      simp only [step, OnClientConnectionChanged]
      split
      · exact ha
      · rename_i g hl
        split
        · exact anyId_updateValue hnd hl rfl ha
        · rw [handlers_QueueMaybeUnloadConversation]
          exact anyId_updateValue hnd hl rfl ha
  | requestInProgressChanged u p =>
      simp only [step, OnRequestInProgressChanged]
      split
      · exact ha
      · rename_i g hl
        split
        · exact anyId_updateValue hnd hl rfl ha
        · rw [handlers_QueueMaybeUnloadConversation]
          exact anyId_updateValue hnd hl rfl ha
  | fireScheduledUnload u =>
      simp only [step, FireScheduledUnload]
      split
      · exact anyId_MaybeUnloadConversation u _ i hnd hstack ha
      · exact ha
  | disassociateContent cid => exact ha
  | tabDataChanged tabs => exact ha
  | suggestedTopicsReceived ts => exact ha
  | getPremiumStatus => exact ha
  | onPremiumStatusReceived s => exact ha
  | createConversation u => simp [sameTurnUse] at hop
  | getOrCreateForContent cid fresh => simp [sameTurnUse] at hop
  | deleteConversation u => simp [sameTurnUse] at hop
  | deleteConversations => simp [sameTurnUse] at hop
  | turnEnd => simp [sameTurnUse] at hop

lemma run_preserves_anyId (ops : List Op) (st : ServiceState) (i : Nat)
    (hops : ∀ op ∈ ops, sameTurnUse op = true)
    (hnd : (keysOf st.conversation_handlers).Nodup)
    (hstack : st.stack_created = some i)
    (ha : anyId i st.conversation_handlers = true) :
    anyId i (run ops st).conversation_handlers = true := by
  induction ops generalizing st with
  | nil => exact ha
  | cons op rest ih =>
      have h1 := hops op (List.mem_cons_self op rest)
      exact ih (step op st)
        (fun o ho => hops o (List.mem_cons_of_mem op ho))
        (step_preserves_handlers_nodup op st hnd)
        (by rw [step_preserves_stack_created op st h1]; exact hstack)
        (step_preserves_anyId op st i h1 hnd hstack ha)

lemma LoadConversationsLazy_fresh (cb : Nat) (st : ServiceState)
    (h : st.on_conversations_loaded_callbacks = none) :
    LoadConversationsLazy cb st =
      { st with
        on_conversations_loaded_callbacks := some [cb]
        cancel_conversation_load := true
        load_requests_sent := st.load_requests_sent + 1 } := by
  unfold LoadConversationsLazy
  rw [h]

lemma LoadConversationsLazy_done (cb : Nat) (st : ServiceState)
    (h : st.on_conversations_loaded_callbacks = some []) :
    LoadConversationsLazy cb st =
      { st with resolved := st.resolved ++ [(cb, st.conversations)] } := by
  unfold LoadConversationsLazy
  rw [h]

lemma LoadConversationsLazy_inflight (cb a : Nat) (t : List Nat)
    (st : ServiceState)
    (h : st.on_conversations_loaded_callbacks = some (a :: t)) :
    LoadConversationsLazy cb st =
      { st with
        on_conversations_loaded_callbacks := some ((a :: t) ++ [cb]) } := by
  unfold LoadConversationsLazy
  rw [h]

lemma issueAll_inflight (cbs : List Nat) (a : Nat) (t : List Nat)
    (st : ServiceState)
    (h : st.on_conversations_loaded_callbacks = some (a :: t)) :
    issueAll cbs st =
      { st with
        on_conversations_loaded_callbacks := some ((a :: t) ++ cbs) } := by
  induction cbs generalizing st t with
  | nil =>
      show st = _
      rw [List.append_nil, ← h]
  | cons c rest ih =>
      show issueAll rest (LoadConversationsLazy c st) = _
      rw [LoadConversationsLazy_inflight c a t st h]
      rw [ih (t ++ [c]) _ rfl]
      simp

lemma issueAll_fresh (c : Nat) (rest : List Nat) (st : ServiceState)
    (h : st.on_conversations_loaded_callbacks = none) :
    issueAll (c :: rest) st =
      { st with
        on_conversations_loaded_callbacks := some (c :: rest)
        cancel_conversation_load := true
        load_requests_sent := st.load_requests_sent + 1 } := by
  show issueAll rest (LoadConversationsLazy c st) = _
  rw [LoadConversationsLazy_fresh c st h]
  rw [issueAll_inflight rest c [] _ rfl]
  rfl

lemma OnLoadConversationsLazyData_inflight (data : List Conversation)
    (st : ServiceState) (h : st.cancel_conversation_load = true) :
    OnLoadConversationsLazyData data st =
      { st with
        conversations := mergeConversations st.conversations data
        on_conversations_loaded_callbacks := some []
        cancel_conversation_load := false
        loads_completed := st.loads_completed + 1
        resolved := st.resolved ++
          (st.on_conversations_loaded_callbacks.getD []).map
            (fun cb => (cb, mergeConversations st.conversations data)) } := by
  unfold OnLoadConversationsLazyData
  rw [h]
  simp

lemma OnLoadConversationsLazyData_stale (data : List Conversation)
    (st : ServiceState) (h : st.cancel_conversation_load = false) :
    OnLoadConversationsLazyData data st = st := by
  unfold OnLoadConversationsLazyData
  rw [h]
  simp

lemma ReloadConversations_inflight (st : ServiceState)
    (hc : st.cancel_conversation_load = true) :
    ReloadConversations st =
      { st with
        conversations := []
        on_conversations_loaded_callbacks := some [doNothingCallbackId]
        cancel_conversation_load := true
        loads_cancelled := st.loads_cancelled + 1
        load_requests_sent := st.load_requests_sent + 1 } := by
  unfold ReloadConversations
  rw [hc]
  rw [if_pos rfl]
  rw [LoadConversationsLazy_fresh _ _ rfl]

lemma ReloadConversations_idle (st : ServiceState)
    (hc : st.cancel_conversation_load = false) :
    ReloadConversations st =
      { st with
        conversations := []
        on_conversations_loaded_callbacks := some [doNothingCallbackId]
        cancel_conversation_load := true
        load_requests_sent := st.load_requests_sent + 1 } := by
  unfold ReloadConversations
  rw [hc]
  rw [if_neg Bool.false_ne_true]
  rw [LoadConversationsLazy_fresh _ _ rfl]

lemma LoadInv_initState : LoadInv initState := by
  constructor <;> rfl

lemma step_preserves_LoadInv (op : Op) (st : ServiceState)
    (h : LoadInv st) : LoadInv (step op st) := by
  obtain ⟨h1, h2⟩ := h
  cases op with
  | loadConversationsLazy cb =>
      show LoadInv (LoadConversationsLazy cb st)
      cases hq : st.on_conversations_loaded_callbacks with
      | none =>
          rw [LoadConversationsLazy_fresh cb st hq]
          have hc : st.cancel_conversation_load = false := by
            rw [h1]
            unfold loadInFlight
            rw [hq]
          constructor
          · rfl
          · show st.load_requests_sent + 1 = _
            rw [h2, hc]
            simp
      | some q =>
          cases q with
          | nil =>
              rw [LoadConversationsLazy_done cb st hq]
              exact ⟨h1, h2⟩
          | cons a t =>
              rw [LoadConversationsLazy_inflight cb a t st hq]
              have hc : st.cancel_conversation_load = true := by
                rw [h1]
                unfold loadInFlight
                rw [hq]
              constructor
              · show st.cancel_conversation_load = true
                exact hc
              · exact h2
  | onLoadConversationsData data =>
      show LoadInv (OnLoadConversationsLazyData data st)
      cases hc : st.cancel_conversation_load with
      | false =>
          rw [OnLoadConversationsLazyData_stale data st hc]
          exact ⟨h1, h2⟩
      | true =>
          rw [OnLoadConversationsLazyData_inflight data st hc]
          rw [hc] at h2
          simp at h2
          constructor
          · rfl
          · show st.load_requests_sent =
              st.loads_completed + 1 + st.loads_cancelled + 0
            omega
  | reloadConversations =>
      show LoadInv (ReloadConversations st)
      cases hc : st.cancel_conversation_load with
      | false =>
          rw [ReloadConversations_idle st hc]
          rw [hc] at h2
          simp at h2
          constructor
          · rfl
          · show st.load_requests_sent + 1 =
              st.loads_completed + st.loads_cancelled + 1
            omega
      | true =>
          rw [ReloadConversations_inflight st hc]
          rw [hc] at h2
          simp at h2
          constructor
          · rfl
          · show st.load_requests_sent + 1 =
              st.loads_completed + (st.loads_cancelled + 1) + 1
            omega
  | createConversation u =>
      simp only [step, CreateConversation]
      repeat' split
      all_goals exact ⟨h1, h2⟩
  | getOrCreateForContent cid fresh =>
      simp only [step, GetOrCreateConversationHandlerForContent,
        CreateConversationHandlerForContent, CreateConversation,
        MaybeAssociateContent]
      repeat' split
      all_goals exact ⟨h1, h2⟩
  | maybeAssociateContent cid u => exact ⟨h1, h2⟩
  | clientConnectionChanged u c =>
      simp only [step, OnClientConnectionChanged,
        QueueMaybeUnloadConversation]
      repeat' split
      all_goals exact ⟨h1, h2⟩
  | requestInProgressChanged u p =>
      simp only [step, OnRequestInProgressChanged,
        QueueMaybeUnloadConversation]
      repeat' split
      all_goals exact ⟨h1, h2⟩
  | fireScheduledUnload u =>
      simp only [step, FireScheduledUnload, MaybeUnloadConversation]
      repeat' split
      all_goals exact ⟨h1, h2⟩
  | deleteConversation u => exact ⟨h1, h2⟩
  | deleteConversations => exact ⟨h1, h2⟩
  | disassociateContent cid => exact ⟨h1, h2⟩
  | tabDataChanged tabs => exact ⟨h1, h2⟩
  | suggestedTopicsReceived ts => exact ⟨h1, h2⟩
  | getPremiumStatus => exact ⟨h1, h2⟩
  | onPremiumStatusReceived s => exact ⟨h1, h2⟩
  | turnEnd => exact ⟨h1, h2⟩

lemma run_preserves_LoadInv (ops : List Op) (st : ServiceState)
    (h : LoadInv st) : LoadInv (run ops st) := by
  induction ops generalizing st with
  | nil => exact h
  | cons op rest ih => exact ih (step op st) (step_preserves_LoadInv op st h)

lemma all_filter_self {α : Type} (p : α → Bool) (l : List α) :
    (l.filter p).all p = true := by
  induction l with
  | nil => rfl
  | cons a t ih =>
    rw [List.filter_cons]
    cases hp : p a with
    | false =>
        rw [if_neg Bool.false_ne_true]
        exact ih
    | true =>
        rw [if_pos rfl, List.all_cons, hp, Bool.true_and]
        exact ih

lemma countKey_eq_zero_of_not_mem {κ α : Type} [BEq κ] [LawfulBEq κ]
    {k : κ} {l : List (κ × α)} (h : k ∉ keysOf l) : countKey k l = 0 := by
  induction l with
  | nil => rfl
  | cons p t ih =>
    obtain ⟨k1, v1⟩ := p
    rw [keysOf_cons, List.mem_cons] at h
    push_neg at h
    have hcond : ((k1, v1).1 == k) = false :=
      beq_eq_false_iff_ne.mpr (Ne.symm h.1)
    simp only [countKey, List.filter_cons, hcond, if_false]
    exact ih h.2

lemma countKey_le_one_of_nodup {κ α : Type} [BEq κ] [LawfulBEq κ] (k : κ)
    (l : List (κ × α)) (h : (keysOf l).Nodup) : countKey k l ≤ 1 := by
  induction l with
  | nil => simp [countKey]
  | cons p t ih =>
    obtain ⟨k1, v1⟩ := p
    rw [keysOf_cons, List.nodup_cons] at h
    by_cases hk : k1 = k
    · subst hk
      have h0 : countKey k1 t = 0 := countKey_eq_zero_of_not_mem h.1
      have hcond : ((k1, v1).1 == k1) = true := by simp
      simp only [countKey, List.filter_cons, hcond, if_true,
        List.length_cons]
      simp only [countKey] at h0
      omega
    · have hcond : ((k1, v1).1 == k) = false := beq_eq_false_iff_ne.mpr hk
      simp only [countKey, List.filter_cons, hcond, if_false]
      exact ih h.2

lemma outstanding_le_one_of_LoadInv (st : ServiceState) (h : LoadInv st) :
    outstandingLoads st ≤ 1 := by
  obtain ⟨h1, h2⟩ := h
  unfold outstandingLoads
  cases hc : st.cancel_conversation_load with
  | false =>
      rw [hc] at h2
      simp at h2
      omega
  | true =>
      rw [hc] at h2
      simp at h2
      omega

lemma GetOrCreate_existing (cid : Int) (fresh u : String)
    (h : ConversationHandler) (st : ServiceState)
    (hc : st.content_conversations.lookup cid = some u)
    (hh : st.conversation_handlers.lookup u = some h) :
    GetOrCreateConversationHandlerForContent cid fresh st =
      (h, { st with
            pending_unloads :=
              st.pending_unloads.filter (fun v => v != u) }) := by
  unfold GetOrCreateConversationHandlerForContent
  simp only [hc, hh]

lemma GetOrCreate_no_association (cid : Int) (fresh : String)
    (st : ServiceState)
    (hc : st.content_conversations.lookup cid = none) :
    GetOrCreateConversationHandlerForContent cid fresh st =
      CreateConversationHandlerForContent cid fresh st := by
  unfold GetOrCreateConversationHandlerForContent
  simp only [hc]

lemma GetOrCreate_no_handler (cid : Int) (fresh u : String)
    (st : ServiceState)
    (hc : st.content_conversations.lookup cid = some u)
    (hh : st.conversation_handlers.lookup u = none) :
    GetOrCreateConversationHandlerForContent cid fresh st =
      CreateConversationHandlerForContent cid fresh st := by
  unfold GetOrCreateConversationHandlerForContent
  simp only [hc, hh]

lemma create_for_content_lookup (cid : Int) (fresh : String)
    (st : ServiceState) :
    ((CreateConversationHandlerForContent cid fresh
        st).2).content_conversations.lookup cid = some fresh ∧
    ((CreateConversationHandlerForContent cid fresh
        st).2).conversation_handlers.lookup fresh =
      some (CreateConversationHandlerForContent cid fresh st).1 := by
  unfold CreateConversationHandlerForContent MaybeAssociateContent
    CreateConversation
  cases hh : st.conversation_handlers.lookup fresh with
  | some g => exact ⟨lookup_cons_eq cid fresh _, hh⟩
  | none => exact ⟨lookup_cons_eq cid fresh _, lookup_cons_eq fresh _ _⟩

lemma OnClientConnectionChanged_connected (u : String)
    (h : ConversationHandler) (st : ServiceState)
    (hh : st.conversation_handlers.lookup u = some h) :
    OnClientConnectionChanged u true st =
      { st with
        conversation_handlers :=
          updateValue u { h with is_any_client_connected := true }
            st.conversation_handlers
        pending_unloads := st.pending_unloads.filter (fun v => v != u) } := by
  unfold OnClientConnectionChanged
  rw [hh]
  rfl

lemma OnRequestInProgressChanged_started (u : String)
    (h : ConversationHandler) (st : ServiceState)
    (hh : st.conversation_handlers.lookup u = some h) :
    OnRequestInProgressChanged u true st =
      { st with
        conversation_handlers :=
          updateValue u { h with is_request_in_progress := true }
            st.conversation_handlers
        pending_unloads := st.pending_unloads.filter (fun v => v != u) } := by
  unfold OnRequestInProgressChanged
  rw [hh]
  rfl

lemma GetOrCreate_idem (cid : Int) (fresh : String) (st : ServiceState) :
    (GetOrCreateConversationHandlerForContent cid fresh
      (GetOrCreateConversationHandlerForContent cid fresh st).2).1 =
      (GetOrCreateConversationHandlerForContent cid fresh st).1 ∧
    (GetOrCreateConversationHandlerForContent cid fresh
      (GetOrCreateConversationHandlerForContent cid fresh
        st).2).2.conversation_handlers =
      (GetOrCreateConversationHandlerForContent cid fresh
        st).2.conversation_handlers := by
  cases hcc : st.content_conversations.lookup cid with
  | some u =>
      cases hh : st.conversation_handlers.lookup u with
      | some h =>
          have e1 := GetOrCreate_existing cid fresh u h st hcc hh
          have e2 := GetOrCreate_existing cid fresh u h
            { st with pending_unloads :=
                st.pending_unloads.filter (fun v => v != u) } hcc hh
          rw [e1]
          dsimp only
          rw [e2]
          exact ⟨rfl, rfl⟩
      | none =>
          rw [GetOrCreate_no_handler cid fresh u st hcc hh]
          obtain ⟨hc2, hh2⟩ := create_for_content_lookup cid fresh st
          rw [GetOrCreate_existing cid fresh fresh _ _ hc2 hh2]
          exact ⟨rfl, rfl⟩
  | none =>
      rw [GetOrCreate_no_association cid fresh st hcc]
      obtain ⟨hc2, hh2⟩ := create_for_content_lookup cid fresh st
      rw [GetOrCreate_existing cid fresh fresh _ _ hc2 hh2]
      exact ⟨rfl, rfl⟩

/-- C1: for every non-empty batch of `GetConversations`/`GetAll` calls
issued before the first lazy metadata load resolves (each one reaching
`LoadConversationsLazy` on a state where fetching has not started),
exactly one bulk load request is sent to the storage collaborator — a
single pending load accumulating the queued callbacks — no callback is
resolved early, and when `OnLoadConversationsLazyData` resolves the load,
every queued callback receives the same resulting conversation mapping,
in FIFO order. -/
theorem C1_single_load_same_mapping (cbs : List Nat)
    (data : List Conversation) (st : ServiceState)
    (hfresh : st.on_conversations_loaded_callbacks = none)
    (hne : cbs ≠ []) :
    (issueAll cbs st).load_requests_sent = st.load_requests_sent + 1 ∧
    (issueAll cbs st).on_conversations_loaded_callbacks = some cbs ∧
    (issueAll cbs st).resolved = st.resolved ∧
    (OnLoadConversationsLazyData data
      (issueAll cbs st)).load_requests_sent = st.load_requests_sent + 1 ∧
    (OnLoadConversationsLazyData data (issueAll cbs st)).resolved =
      st.resolved ++ cbs.map (fun cb =>
        (cb, mergeConversations st.conversations data)) := by
  obtain ⟨c, rest, rfl⟩ : ∃ c rest, cbs = c :: rest := by
    cases cbs with
    | nil => exact absurd rfl hne
    | cons c rest => exact ⟨c, rest, rfl⟩
  rw [issueAll_fresh c rest st hfresh]
  rw [OnLoadConversationsLazyData_inflight data _ rfl]
  exact ⟨rfl, rfl, rfl, rfl, rfl⟩

/-- Witness for C1 at a concrete input: two callbacks queued on the fresh
service, resolved by one load of a single conversation. -/
theorem C1_single_load_same_mapping_witness :
    (issueAll [1, 2] initState).load_requests_sent =
      initState.load_requests_sent + 1 ∧
    (issueAll [1, 2] initState).on_conversations_loaded_callbacks =
      some [1, 2] ∧
    (issueAll [1, 2] initState).resolved = initState.resolved ∧
    (OnLoadConversationsLazyData [{ uuid := uuidA, title := "Chat 1" }]
      (issueAll [1, 2] initState)).load_requests_sent =
      initState.load_requests_sent + 1 ∧
    (OnLoadConversationsLazyData [{ uuid := uuidA, title := "Chat 1" }]
      (issueAll [1, 2] initState)).resolved =
      initState.resolved ++ [1, 2].map (fun cb =>
        (cb, mergeConversations initState.conversations
          [{ uuid := uuidA, title := "Chat 1" }])) :=
  C1_single_load_same_mapping [1, 2] [{ uuid := uuidA, title := "Chat 1" }]
    initState rfl (by decide)

/-- C2: for every conversation identifier at most one handler instance
exists at any instant — in every reachable state the handler map has at
most one entry per uuid key — and overlapping
`GetOrCreateConversationHandlerForContent` calls for the same content id
collapse onto the same handler: a repeated call returns the very handler
produced by the first one and leaves the handler map unchanged, never
producing a second handler. -/
theorem C2_at_most_one_handler_per_uuid :
    (∀ (ops : List Op) (u : String),
      countKey u (run ops initState).conversation_handlers ≤ 1) ∧
    (∀ (st : ServiceState) (cid : Int) (fresh : String),
      (GetOrCreateConversationHandlerForContent cid fresh
        (GetOrCreateConversationHandlerForContent cid fresh st).2).1 =
        (GetOrCreateConversationHandlerForContent cid fresh st).1 ∧
      (GetOrCreateConversationHandlerForContent cid fresh
        (GetOrCreateConversationHandlerForContent cid fresh
          st).2).2.conversation_handlers =
        (GetOrCreateConversationHandlerForContent cid fresh
          st).2.conversation_handlers) := by
  constructor
  · intro ops u
    exact countKey_le_one_of_nodup u _
      (run_preserves_handlers_nodup ops initState List.nodup_nil)
  · intro st cid fresh
    exact GetOrCreate_idem cid fresh st

/-- C3: `CanUnloadConversation` returns false whenever the handler has a
request in progress, has connected clients, or is the most-recently-
created handler within the current call stack; consequently a handler
created in the current stack frame survives any sequence of same-turn
uses and asynchronous completions — including delayed-unload timers
firing — until control returns to the event loop. -/
theorem C3_no_eviction_during_creating_stack :
    (∀ (st : ServiceState) (h : ConversationHandler),
      (h.is_request_in_progress = true ∨ h.is_any_client_connected = true ∨
        st.stack_created = some h.id) →
      CanUnloadConversation st h = false) ∧
    (∀ (ops : List Op) (st : ServiceState) (i : Nat),
      (∀ op ∈ ops, sameTurnUse op = true) →
      (keysOf st.conversation_handlers).Nodup →
      st.stack_created = some i →
      anyId i st.conversation_handlers = true →
      anyId i (run ops st).conversation_handlers = true) := by
  constructor
  · intro st h hcase
    rcases hcase with h1 | h1 | h1 <;>
      cases hreq : h.is_request_in_progress <;>
      cases hconn : h.is_any_client_connected <;>
      simp_all [CanUnloadConversation]
  · intro ops st i hops hnd hstack ha
    exact run_preserves_anyId ops st i hops hnd hstack ha

/-- Witness for C3 at concrete inputs: a busy handler cannot be unloaded,
and the handler created in the current stack survives a client
disconnect plus a timer firing within the same turn. -/
theorem C3_no_eviction_during_creating_stack_witness :
    CanUnloadConversation initState
      { id := 0, is_request_in_progress := true,
        is_any_client_connected := false } = false ∧
    anyId 0 (run [Op.clientConnectionChanged uuidA false,
        Op.fireScheduledUnload uuidA]
      (run [Op.createConversation uuidA]
        initState)).conversation_handlers = true := by
  constructor
  · exact C3_no_eviction_during_creating_stack.1 initState
      { id := 0, is_request_in_progress := true,
        is_any_client_connected := false } (Or.inl rfl)
  · exact C3_no_eviction_during_creating_stack.2
      [Op.clientConnectionChanged uuidA false, Op.fireScheduledUnload uuidA]
      (run [Op.createConversation uuidA] initState) 0
      (by decide) (by decide) (by decide) (by decide)

/-- C4: for a conversation with an outstanding scheduled delayed unload,
any reactivation — a client connecting, a request starting, or a
`GetOrCreateConversationHandlerForContent` resolving to it — cancels the
scheduled unload before it can fire, and the handler is still present in
the handler map afterwards. -/
theorem C4_reactivation_cancels_pending_unload (st : ServiceState)
    (u : String) (h : ConversationHandler)
    (hh : st.conversation_handlers.lookup u = some h)
    (hp : st.pending_unloads.contains u = true) :
    ((OnClientConnectionChanged u true st).pending_unloads.contains u =
        false ∧
      (OnClientConnectionChanged u true st).conversation_handlers.lookup u =
        some { h with is_any_client_connected := true }) ∧
    ((OnRequestInProgressChanged u true st).pending_unloads.contains u =
        false ∧
      (OnRequestInProgressChanged u true st).conversation_handlers.lookup u =
        some { h with is_request_in_progress := true }) ∧
    (∀ cid : Int, st.content_conversations.lookup cid = some u →
      (GetOrCreateConversationHandlerForContent cid u st).1 = h ∧
      (GetOrCreateConversationHandlerForContent cid u
        st).2.pending_unloads.contains u = false ∧
      (GetOrCreateConversationHandlerForContent cid u
        st).2.conversation_handlers.lookup u = some h) := by
  refine ⟨⟨?_, ?_⟩, ⟨?_, ?_⟩, ?_⟩
  · rw [OnClientConnectionChanged_connected u h st hh]
    exact filter_bne_not_contains u st.pending_unloads
  · rw [OnClientConnectionChanged_connected u h st hh]
    show (updateValue u _ st.conversation_handlers).lookup u = _
    rw [lookup_updateValue_self, hh]
    rfl
  · rw [OnRequestInProgressChanged_started u h st hh]
    exact filter_bne_not_contains u st.pending_unloads
  · rw [OnRequestInProgressChanged_started u h st hh]
    show (updateValue u _ st.conversation_handlers).lookup u = _
    rw [lookup_updateValue_self, hh]
    rfl
  · intro cid hcc
    rw [GetOrCreate_existing cid u u h st hcc hh]
    exact ⟨rfl, filter_bne_not_contains u st.pending_unloads, hh⟩

/-- Witness for C4 at a concrete input: the idle demo conversation has a
scheduled unload; a client connection and a content lookup both cancel it
and keep the handler. -/
theorem C4_reactivation_cancels_pending_unload_witness :
    ((OnClientConnectionChanged uuidA true
        demoIdleState).pending_unloads.contains uuidA = false ∧
      (OnClientConnectionChanged uuidA true
        demoIdleState).conversation_handlers.lookup uuidA =
        some { demoHandler with is_any_client_connected := true }) ∧
    ((GetOrCreateConversationHandlerForContent 1 uuidA demoIdleState).1 =
        demoHandler ∧
      (GetOrCreateConversationHandlerForContent 1 uuidA
        demoIdleState).2.pending_unloads.contains uuidA = false ∧
      (GetOrCreateConversationHandlerForContent 1 uuidA
        demoIdleState).2.conversation_handlers.lookup uuidA =
        some demoHandler) := by
  constructor
  · exact (C4_reactivation_cancels_pending_unload demoIdleState uuidA
      demoHandler (by decide) (by decide)).1
  · exact (C4_reactivation_cancels_pending_unload demoIdleState uuidA
      demoHandler (by decide) (by decide)).2.2 1 (by decide)

/-- C5: `DeleteConversation` (and the bulk `DeleteConversations`)
short-circuits the delayed-unload policy: with no precondition on
`CanUnloadConversation`, on scheduled timers or on the idle delay, the
handler of the deleted conversation is destroyed immediately and its
metadata record and every content association pointing at it are removed;
the bulk form removes them for every conversation. -/
theorem C5_delete_short_circuits (st : ServiceState) (u v : String) :
    (DeleteConversation u st).conversation_handlers.lookup u = none ∧
    (DeleteConversation u st).conversations.lookup u = none ∧
    (DeleteConversation u st).content_conversations.all
      (fun p => p.2 != u) = true ∧
    (DeleteConversations st).conversation_handlers.lookup v = none ∧
    (DeleteConversations st).conversations.lookup v = none ∧
    (DeleteConversations st).content_conversations = [] := by
  refine ⟨lookup_eraseKey_self u _, lookup_eraseKey_self u _, ?_,
    rfl, rfl, rfl⟩
  exact all_filter_self (fun p => p.2 != u) st.content_conversations

/-- C6: the content-association index satisfies the round trip —
associating a content id with a conversation uuid and then resolving the
content id yields that uuid, a later association overwrites the previous
mapping, and after disassociating the content id resolution yields
absent. -/
theorem C6_content_association_round_trip (st : ServiceState) (cid : Int)
    (u u2 : String) :
    (MaybeAssociateContent cid u st).content_conversations.lookup cid =
      some u ∧
    (MaybeAssociateContent cid u2
      (MaybeAssociateContent cid u st)).content_conversations.lookup cid =
      some u2 ∧
    (DisassociateContent cid
      (MaybeAssociateContent cid u st)).content_conversations.lookup cid =
      none := by
  refine ⟨lookup_cons_eq cid u _, lookup_cons_eq cid u2 _, ?_⟩
  show (eraseKey cid ((cid, u) ::
    st.content_conversations.filter (fun p => p.1 != cid))).lookup cid = none
  exact lookup_eraseKey_self cid _

/-- C7: `ReloadConversations` drops the hydration state (empties the
in-memory mapping and resets the pending-load bookkeeping) and re-triggers
the bulk load; if a load is in flight when it is called, that load is
cancelled first — its queued callers are never invoked — and a fresh load
begins, so after a reload exactly one load is outstanding, and in every
reachable state at most one load is ever outstanding. -/
theorem C7_reload_cancels_and_restarts (st : ServiceState)
    (hinv : LoadInv st) :
    (ReloadConversations st).conversations = [] ∧
    (ReloadConversations st).on_conversations_loaded_callbacks =
      some [doNothingCallbackId] ∧
    (ReloadConversations st).load_requests_sent =
      st.load_requests_sent + 1 ∧
    (ReloadConversations st).resolved = st.resolved ∧
    (st.cancel_conversation_load = true →
      (ReloadConversations st).loads_cancelled = st.loads_cancelled + 1) ∧
    outstandingLoads (ReloadConversations st) = 1 ∧
    (∀ ops : List Op, outstandingLoads (run ops initState) ≤ 1) := by
  have hlast : ∀ ops : List Op,
      outstandingLoads (run ops initState) ≤ 1 := fun ops =>
    outstanding_le_one_of_LoadInv _
      (run_preserves_LoadInv ops initState LoadInv_initState)
  obtain ⟨h1, h2⟩ := hinv
  cases hc : st.cancel_conversation_load with
  | true =>
      rw [ReloadConversations_inflight st hc]
      rw [hc] at h2
      simp at h2
      refine ⟨rfl, rfl, rfl, rfl, fun _ => rfl, ?_, hlast⟩
      show st.load_requests_sent + 1 -
        (st.loads_completed + (st.loads_cancelled + 1)) = 1
      omega
  | false =>
      rw [ReloadConversations_idle st hc]
      rw [hc] at h2
      simp at h2
      refine ⟨rfl, rfl, rfl, rfl, ?_, ?_, hlast⟩
      · intro hcontra
        exact absurd hcontra (by simp)
      · show st.load_requests_sent + 1 -
          (st.loads_completed + st.loads_cancelled) = 1
        omega

/-- Witness for C7 at a concrete input: reloading the fresh service and
reloading twice in a row keep exactly one load outstanding. -/
theorem C7_reload_cancels_and_restarts_witness :
    (ReloadConversations initState).conversations = [] ∧
    (ReloadConversations initState).load_requests_sent =
      initState.load_requests_sent + 1 ∧
    (ReloadConversations initState).resolved = initState.resolved ∧
    outstandingLoads (ReloadConversations initState) = 1 ∧
    outstandingLoads (run [Op.reloadConversations, Op.reloadConversations]
      initState) ≤ 1 := by
  obtain ⟨ha, hb, hcq, hd, he, hf, hg⟩ :=
    C7_reload_cancels_and_restarts initState LoadInv_initState
  exact ⟨ha, hcq, hd, hf, hg [Op.reloadConversations, Op.reloadConversations]⟩

/-- C8: when a scheduled delayed unload fires and `CanUnloadConversation`
is still true, the resulting state differs from the previous one only in
the handler map — the handler is removed, while the metadata map
`conversations_` (and every other field) is left unchanged; if
`CanUnloadConversation` is false, or the conversation was already
unloaded, nothing is changed at all. -/
theorem C8_fire_unload_frame (st : ServiceState) (u : String) :
    (∀ h : ConversationHandler,
      st.conversation_handlers.lookup u = some h →
      (CanUnloadConversation st h = true →
        MaybeUnloadConversation u st =
          { st with conversation_handlers :=
              eraseKey u st.conversation_handlers }) ∧
      (CanUnloadConversation st h = false →
        MaybeUnloadConversation u st = st)) ∧
    (st.conversation_handlers.lookup u = none →
      MaybeUnloadConversation u st = st) ∧
    (MaybeUnloadConversation u st).conversations = st.conversations := by
  refine ⟨?_, ?_, ?_⟩
  · intro h hh
    constructor
    · intro hcan
      unfold MaybeUnloadConversation
      simp [hh, hcan]
    · intro hcan
      unfold MaybeUnloadConversation
      simp [hh, hcan]
  · intro hh
    unfold MaybeUnloadConversation
    simp [hh]
  · unfold MaybeUnloadConversation
    repeat' split
    all_goals rfl

/-- Witness for C8 at a concrete input: firing the unload on the idle demo
conversation removes exactly its handler; firing it for an unknown
conversation changes nothing. -/
theorem C8_fire_unload_frame_witness :
    MaybeUnloadConversation uuidA demoIdleState =
      { demoIdleState with conversation_handlers := eraseKey uuidA demoIdleState.conversation_handlers } ∧
    MaybeUnloadConversation uuidMissing demoIdleState = demoIdleState := by
  constructor
  · exact ((C8_fire_unload_frame demoIdleState uuidA).1 demoHandler
      (by decide)).1 (by decide)
  · exact (C8_fire_unload_frame demoIdleState uuidMissing).2.1 (by decide)

/-- C9: the process-wide cached premium status starts out as the explicit
`Unknown` value at service construction, no event other than the arrival
of a `GetPremiumStatus` response (`OnPremiumStatusReceived`) ever changes
it — there is no push channel — and the response sets it to the received
status. -/
theorem C9_premium_status_cache :
    initState.last_premium_status = PremiumStatus.unknown ∧
    (∀ (op : Op) (st : ServiceState),
      op.isOnPremiumStatusReceived = false →
      (step op st).last_premium_status = st.last_premium_status) ∧
    (∀ (s : PremiumStatus) (st : ServiceState),
      (OnPremiumStatusReceived s st).last_premium_status = s) :=
  ⟨rfl, step_preserves_last_premium_status, fun s st => rfl⟩

/-- Witness for C9 at a concrete input: a tab-data change does not touch
the cached premium status of the fresh service. -/
theorem C9_premium_status_cache_witness :
    (step (Op.tabDataChanged []) initState).last_premium_status =
      initState.last_premium_status :=
  C9_premium_status_cache.2.1 (Op.tabDataChanged []) initState rfl

/-- C10: every invocation of `TabDataChanged` clears the cached suggested
focus topics, so a topics result cached by a `GetSuggestedTopics` response
before a tab-data change is never served after it. -/
theorem C10_tab_data_change_clears_cached_topics (tabs : List Nat)
    (ts : List String) (st : ServiceState) :
    (TabDataChanged tabs st).cached_focus_topics = [] ∧
    (TabDataChanged tabs
      (OnSuggestedTopicsReceived ts st)).cached_focus_topics = [] :=
  ⟨rfl, rfl⟩

end AIChatServiceModel
